import Mathlib

/-!
Verification of the work-distribution, aggregation and reporting pipeline of
the `linecount` line counter (`src/main.rs`), against its specification.
The program's data model and operations are embedded shallowly below; pure
Rust functions become Lean functions, the concurrent worker loop is modelled
by the finite sequence of steal results a worker observes, and fallible
operations return `Option`.
-/

namespace Linecount

/-- Modelled from the spec: `Lang` (provided by the external `loc` crate,
whose source is not part of this repository) is a closed enumeration of
recognized languages plus an `Unrecognized` sentinel, equality-comparable,
with a stable display name (`to_s`) used for lexicographic sort.  We model
the sentinel plus arbitrarily named languages. -/
inductive Lang where
  | Unrecognized : Lang
  | Named (name : String) : Lang
deriving DecidableEq, Repr

/-- Display name of a language (`Lang::to_s` of the `loc` crate). -/
def Lang.to_s : Lang → String
  | .Unrecognized => "Unrecognized"
  | .Named n => n

/-- Modelled from the spec: `Count` (from the external `loc` crate) is
`{lines, blank, comment, code}`, all non-negative integers (`u64` in the
crate; the claims here do not depend on the 2^64 bound). -/
structure Count where
  code : Nat
  comment : Nat
  blank : Nat
  lines : Nat
deriving DecidableEq, Repr

/-- `Count::default()`: all four tallies zero. -/
def Count.default : Count := ⟨0, 0, 0, 0⟩

/-- Modelled from the spec: `Count::merge` is pointwise addition. -/
def Count.merge (c o : Count) : Count :=
  ⟨c.code + o.code, c.comment + o.comment, c.blank + o.blank, c.lines + o.lines⟩

/-- `FileCount` (main.rs lines 34-39): one counted file's path, language and
line counts. -/
structure FileCount where
  path : String
  lang : Lang
  count : Count
deriving DecidableEq, Repr

/-- `Work` (main.rs lines 25-28): a queued unit of work. -/
inductive Work where
  | File (path : String) : Work
  | Quit : Work
deriving DecidableEq, Repr

/-- The deque steal results (`deque::Stolen`): `Empty`/`Abort` make the
worker loop again, `Data` carries a work item. -/
inductive Stolen where
  | Empty : Stolen
  | Abort : Stolen
  | Data (w : Work) : Stolen
deriving DecidableEq, Repr

/-- `Worker::run` (main.rs lines 43-64), applied to the finite sequence of
steal results this worker observes.  `classify` and `cnt` model the external
`loc` crate's `lang_from_ext` and `count`.  `Empty`/`Abort` results make the
loop continue, the first `Quit` stops it (later steal results are never
seen), and a `File` is recorded only when its language is recognized. -/
def Worker.run (classify : String → Lang) (cnt : String → Count) :
    List Stolen → List FileCount
  | [] => []
  | .Empty :: rest => Worker.run classify cnt rest
  | .Abort :: rest => Worker.run classify cnt rest
  | .Data .Quit :: _ => []
  | .Data (.File path) :: rest =>
    if classify path ≠ Lang.Unrecognized then
      { path := path, lang := classify path, count := cnt path } ::
        Worker.run classify cnt rest
    else
      Worker.run classify cnt rest

/-- The complete sequence of items `main` pushes onto the work queue: one
`Work::File` per filtered path of every target (lines 211-213), then exactly
one `Work::Quit` per spawned worker (lines 216-218, `workers.len()` =
`threads`). -/
def coordinatorQueue (files : List String) (threads : Nat) : List Work :=
  files.map Work.File ++ List.replicate threads Work.Quit

/-- The include/exclude filter of `main` (main.rs lines 202-209), applied to
each path the walker yields.  Regex matching (external `regex` crate) is
modelled by abstract predicates; `none` models an absent option. -/
def keepPath (include_regex exclude_regex : Option (String → Bool))
    (path : String) : Bool :=
  (match include_regex with
   | none => true
   | some inc => inc path)
  && (match exclude_regex with
      | none => true
      | some exc => !exc path)

/-- A directory entry yielded by the walker, after its `Result` wrapper:
its path string and whether its file type is a regular file.  (The
`expect("no filetype")` on `entry.file_type()` never fires for walker
entries — `file_type()` is `None` only for stdin, which `WalkBuilder`
does not yield — so the file type is modelled as a plain `Bool`.) -/
structure DirEntry where
  path : String
  file_kind_is_file : Bool
deriving DecidableEq, Repr

/-- The per-target path pipeline of `main` (main.rs lines 197-209): drop
erroneous entries (`filter_map(|entry| entry.ok())`, the `Result` modelled
by `Option`), keep regular files, take the path string, then apply the
include and exclude filters. -/
def walkFiles (include_regex exclude_regex : Option (String → Bool))
    (entries : List (Option DirEntry)) : List String :=
  (((entries.filterMap id).filter (fun e => e.file_kind_is_file)).map
      (fun e => e.path)).filter (keepPath include_regex exclude_regex)

/-- Byte length of a string: Rust `str::len` counts UTF-8 bytes. -/
def byteLen (s : String) : Nat := (s.data.map Char.utf8Size).sum

/-- `last_n_chars` (main.rs lines 331-336).  If the byte length of `s` fits
within `n` the string is returned unchanged; otherwise the code skips
`s.len() - n` characters — note that `len()` is in bytes while
`chars().skip` is in characters. -/
def last_n_chars (s : String) (n : Nat) : String :=
  if byteLen s ≤ n then s
  else String.mk (s.data.drop (byteLen s - n))

/-- Rust `usize` subtraction as used in the column-layout expressions
`width - 63` and `width - 55`: `none` models the debug-build underflow
panic (in release builds the value instead wraps modulo 2^64, making the
requested padding astronomically large). -/
def usizeSub (a b : Nat) : Option Nat :=
  if b ≤ a then some (a - b) else none

/-- Width handed to the leading column: `width - 63`
(main.rs lines 241, 259, 345, 355, 377). -/
def firstColWidth (width : Nat) : Option Nat := usizeSub width 63

/-- Width handed to the path column in per-file mode: `width - 55`
(main.rs line 281). -/
def pathColWidth (width : Nat) : Option Nat := usizeSub width 55

/-- Decimal reading of a character list: succeeds exactly on a non-empty
all-digit list. -/
def digitsToNat (l : List Char) : Option Nat :=
  match l with
  | [] => none
  | _ :: _ =>
    l.foldl
      (fun acc c =>
        match acc with
        | none => none
        | some n =>
          if c.isDigit then some (n * 10 + (c.toNat - ('0').toNat)) else none)
      (some 0)

/-- Rust `str::parse::<usize>`: an optional leading `+` followed by one or
more ASCII digits (overflow beyond `usize::MAX`, which also fails in Rust,
is immaterial to the claims and not modelled). -/
def parseUsize (s : String) : Option Nat :=
  match s.data with
  | '+' :: rest => digitsToNat rest
  | l => digitsToNat l

/-- The `--width` option processing of `main` (main.rs lines 167-180).
`widthArg` is the option's value when present, `termWidth` the terminal
width when it could be queried.  The result `none` models the `unwrap`
panic on a value that is neither `"full"` nor a parseable unsigned
integer. -/
def computeWidth (widthArg : Option String) (termWidth : Option Nat) :
    Option Nat :=
  match widthArg with
  | none => some 80
  | some v =>
    if v = "full" then
      some (match termWidth with
            | some w => w
            | none => 80)
    else
      parseUsize v

/-- One step of the `by_lang` HashMap construction (main.rs lines 226-234),
on an association-list model of the map: a `FileCount` is appended to its
language's existing bucket, or opens a new bucket. -/
def addToBuckets (fc : FileCount) :
    List (Lang × List FileCount) → List (Lang × List FileCount)
  | [] => [(fc.lang, [fc])]
  | (l, b) :: rest =>
    if l = fc.lang then (l, b ++ [fc]) :: rest
    else (l, b) :: addToBuckets fc rest

/-- The `by_lang` grouping of all joined `FileCount`s (main.rs lines
226-234).  Bucket order models the unspecified map iteration order. -/
def groupByLang (fcs : List FileCount) : List (Lang × List FileCount) :=
  fcs.foldl (fun acc fc => addToBuckets fc acc) []

/-- The fold of `Count::merge` over a bucket's counts, starting from
`Count::default()` (main.rs lines 253-256 and 293-296). -/
def totalCount (counts : List Count) : Count :=
  counts.foldl Count.merge Count.default

/-- `LangTotal` (from the `loc` crate): per-language file tally plus
aggregate `Count`.  The crate stores `files` as `u32` via
`filecounts.len() as u32`; the spec models it as a non-negative integer,
which agrees below 2^32 files. -/
structure LangTotal where
  files : Nat
  count : Count
deriving DecidableEq, Repr

/-- The per-language summary rows (`lang_totals`, main.rs lines 291-302):
for each bucket, the number of its files and the merge of its counts. -/
def langTotals (buckets : List (Lang × List FileCount)) :
    List (Lang × LangTotal) :=
  buckets.map (fun b =>
    (b.1, { files := b.2.length, count := totalCount (b.2.map FileCount.count) }))

/-- The Totals row accumulated by `print_totals_by_lang`
(main.rs lines 364-374): componentwise running sums over the rows. -/
def totalsRow (rows : List (Lang × LangTotal)) : LangTotal :=
  rows.foldl
    (fun acc r =>
      { files := acc.files + r.2.files,
        count :=
          { code := acc.count.code + r.2.count.code,
            comment := acc.count.comment + r.2.count.comment,
            blank := acc.count.blank + r.2.count.blank,
            lines := acc.count.lines + r.2.count.lines } })
    { files := 0, count := Count.default }

/-- Rust's `slice::sort_by(cmp)`: a stable sort, ascending in the
comparator.  Modelled by stable insertion sort over the relation
`cmp a b ≠ Ordering.gt` ("a need not come after b"); any two stable sorts
of a total transitive comparator agree, and the comparators below (built
from `Ord::cmp`) are total and transitive. -/
def sortByCmp {α : Type} (cmp : α → α → Ordering) (l : List α) : List α :=
  l.insertionSort (fun a b => cmp a b ≠ Ordering.gt)

/-- The summary-mode sort dispatch of `main` (main.rs lines 305-324).  Each
recognized key sorts with the comparator of its match arm; the fallthrough
arm prints "invalid sort option ..., sorting by code" and sorts by code.
The `Bool` records whether that warning was printed. -/
def sortSummary (sort : String) (rows : List (Lang × LangTotal)) :
    List (Lang × LangTotal) × Bool :=
  match sort with
  | "language" =>
    (sortByCmp (fun a b => compare (Lang.to_s a.1) (Lang.to_s b.1)) rows, false)
  | "files" =>
    (sortByCmp (fun a b => compare b.2.files a.2.files) rows, false)
  | "code" =>
    (sortByCmp (fun a b => compare b.2.count.code a.2.count.code) rows, false)
  | "comment" =>
    (sortByCmp (fun a b => compare b.2.count.comment a.2.count.comment) rows, false)
  | "blank" =>
    (sortByCmp (fun a b => compare b.2.count.blank a.2.count.blank) rows, false)
  | "lines" =>
    (sortByCmp (fun a b => compare b.2.count.lines a.2.count.lines) rows, false)
  | _ =>
    (sortByCmp (fun a b => compare b.2.count.code a.2.count.code) rows, true)

/-- The per-language file sort of per-file mode (main.rs lines 267-276):
only the four numeric count keys sort; every other key — `language`,
`files`, and unknown keys alike — falls into the `_ => ()` arm and leaves
the arrival order, printing nothing. -/
def sortPerFile (sort : String) (fcs : List FileCount) : List FileCount :=
  match sort with
  | "code" => sortByCmp (fun a b => compare b.count.code a.count.code) fcs
  | "comment" => sortByCmp (fun a b => compare b.count.comment a.count.comment) fcs
  | "blank" => sortByCmp (fun a b => compare b.count.blank a.count.blank) fcs
  | "lines" => sortByCmp (fun a b => compare b.count.lines a.count.lines) fcs
  | _ => fcs

/-- All file rows printed in per-file mode (main.rs lines 252-287): for
each language bucket, in bucket order, its files sorted by the sort key. -/
def perFileRows (sort : String) (fcs : List FileCount) : List FileCount :=
  (groupByLang fcs).foldr (fun b acc => sortPerFile sort b.2 ++ acc) []

/-- Concatenation of all buckets' file lists, in bucket order. -/
def bucketsFlatten (bs : List (Lang × List FileCount)) : List FileCount :=
  bs.foldr (fun b acc => b.2 ++ acc) []

/-! ## Helper lemmas -/

theorem totalsRow_foldl (rows : List (Lang × LangTotal)) (acc : LangTotal) :
    rows.foldl
      (fun acc r =>
        { files := acc.files + r.2.files,
          count :=
            { code := acc.count.code + r.2.count.code,
              comment := acc.count.comment + r.2.count.comment,
              blank := acc.count.blank + r.2.count.blank,
              lines := acc.count.lines + r.2.count.lines } }) acc
    = { files := acc.files + (rows.map (fun r => r.2.files)).sum,
        count :=
          { code := acc.count.code + (rows.map (fun r => r.2.count.code)).sum,
            comment := acc.count.comment + (rows.map (fun r => r.2.count.comment)).sum,
            blank := acc.count.blank + (rows.map (fun r => r.2.count.blank)).sum,
            lines := acc.count.lines + (rows.map (fun r => r.2.count.lines)).sum } } := by
  induction rows generalizing acc with
  | nil => simp
  | cons r rest ih => simp [List.foldl_cons, ih, Nat.add_assoc]

/-- The Totals row is the componentwise sum over the rows. -/
theorem totalsRow_eq_sums (rows : List (Lang × LangTotal)) :
    totalsRow rows =
      { files := (rows.map (fun r => r.2.files)).sum,
        count :=
          { code := (rows.map (fun r => r.2.count.code)).sum,
            comment := (rows.map (fun r => r.2.count.comment)).sum,
            blank := (rows.map (fun r => r.2.count.blank)).sum,
            lines := (rows.map (fun r => r.2.count.lines)).sum } } := by
  simpa [totalsRow, Count.default] using totalsRow_foldl rows ⟨0, 0, 0, 0, 0⟩

theorem totalCount_foldl (counts : List Count) (acc : Count) :
    counts.foldl Count.merge acc
    = { code := acc.code + (counts.map Count.code).sum,
        comment := acc.comment + (counts.map Count.comment).sum,
        blank := acc.blank + (counts.map Count.blank).sum,
        lines := acc.lines + (counts.map Count.lines).sum } := by
  induction counts generalizing acc with
  | nil => simp
  | cons c rest ih => simp [List.foldl_cons, ih, Count.merge, Nat.add_assoc]

/-- The merge of a bucket is the componentwise sum of its counts. -/
theorem totalCount_eq_sums (counts : List Count) :
    totalCount counts
    = { code := (counts.map Count.code).sum,
        comment := (counts.map Count.comment).sum,
        blank := (counts.map Count.blank).sum,
        lines := (counts.map Count.lines).sum } := by
  simpa [totalCount, Count.default] using totalCount_foldl counts ⟨0, 0, 0, 0⟩

theorem bucketsFlatten_nil : bucketsFlatten [] = [] := rfl

theorem bucketsFlatten_cons (b : Lang × List FileCount)
    (rest : List (Lang × List FileCount)) :
    bucketsFlatten (b :: rest) = b.2 ++ bucketsFlatten rest := rfl

theorem addToBuckets_flatten_perm (fc : FileCount)
    (bs : List (Lang × List FileCount)) :
    List.Perm (bucketsFlatten (addToBuckets fc bs)) (bucketsFlatten bs ++ [fc]) := by
  induction bs with
  | nil => simp [bucketsFlatten, addToBuckets]
  | cons b rest ih =>
    obtain ⟨l, bk⟩ := b
    by_cases h : l = fc.lang
    · simp only [addToBuckets, if_pos h, bucketsFlatten_cons, List.append_assoc]
      exact List.Perm.append_left _ List.perm_append_comm
    · simp only [addToBuckets, if_neg h, bucketsFlatten_cons, List.append_assoc]
      exact List.Perm.append_left _ ih

theorem groupByLang_foldl_flatten_perm (fcs : List FileCount)
    (acc : List (Lang × List FileCount)) :
    List.Perm (bucketsFlatten (fcs.foldl (fun a fc => addToBuckets fc a) acc))
      (bucketsFlatten acc ++ fcs) := by
  induction fcs generalizing acc with
  | nil => simp
  | cons fc rest ih =>
    rw [List.foldl_cons]
    have h1 := ih (addToBuckets fc acc)
    have h2 := List.Perm.append_right rest (addToBuckets_flatten_perm fc acc)
    simpa using h1.trans h2

/-- The grouping preserves the multiset of `FileCount`s. -/
theorem groupByLang_flatten_perm (fcs : List FileCount) :
    List.Perm (bucketsFlatten (groupByLang fcs)) fcs := by
  simpa [bucketsFlatten] using groupByLang_foldl_flatten_perm fcs []

theorem sortByCmp_perm {α : Type} (cmp : α → α → Ordering) (l : List α) :
    List.Perm (sortByCmp cmp l) l := by
  unfold sortByCmp
  exact List.perm_insertionSort _ _

theorem sortPerFile_perm (sort : String) (fcs : List FileCount) :
    List.Perm (sortPerFile sort fcs) fcs := by
  unfold sortPerFile
  split
  · exact sortByCmp_perm _ _
  · exact sortByCmp_perm _ _
  · exact sortByCmp_perm _ _
  · exact sortByCmp_perm _ _
  · exact List.Perm.refl _

theorem sortSummary_perm (sort : String) (rows : List (Lang × LangTotal)) :
    List.Perm (sortSummary sort rows).1 rows := by
  unfold sortSummary
  split
  · exact sortByCmp_perm _ _
  · exact sortByCmp_perm _ _
  · exact sortByCmp_perm _ _
  · exact sortByCmp_perm _ _
  · exact sortByCmp_perm _ _
  · exact sortByCmp_perm _ _
  · exact sortByCmp_perm _ _

theorem perFileRows_perm (sort : String) (fcs : List FileCount) :
    List.Perm (perFileRows sort fcs) fcs := by
  have h : ∀ bs : List (Lang × List FileCount),
      List.Perm (bs.foldr (fun b acc => sortPerFile sort b.2 ++ acc) [])
        (bucketsFlatten bs) := by
    intro bs
    induction bs with
    | nil => simp [bucketsFlatten]
    | cons b rest ih =>
      simpa [bucketsFlatten_cons] using (sortPerFile_perm sort b.2).append ih
  exact ((h (groupByLang fcs)).trans (groupByLang_flatten_perm fcs))

theorem flatten_map_sum (g : FileCount → Nat)
    (bs : List (Lang × List FileCount)) :
    ((bucketsFlatten bs).map g).sum = (bs.map (fun b => ((b.2.map g).sum))).sum := by
  induction bs with
  | nil => simp [bucketsFlatten]
  | cons b rest ih => simp [bucketsFlatten_cons, ih]

theorem flatten_length (bs : List (Lang × List FileCount)) :
    (bucketsFlatten bs).length = (bs.map (fun b => b.2.length)).sum := by
  induction bs with
  | nil => simp [bucketsFlatten]
  | cons b rest ih => simp [bucketsFlatten_cons, ih]

/-- Pairwise ascending order in a key after `sort_by` with the ascending
comparator of that key. -/
theorem sortByCmp_pairwise_le {α β : Type} [LinearOrder β] (key : α → β)
    (l : List α) :
    (sortByCmp (fun a b => compare (key a) (key b)) l).Pairwise
      (fun a b => key a ≤ key b) := by
  haveI : IsTotal α (fun a b => compare (key a) (key b) ≠ Ordering.gt) :=
    ⟨fun a b => by
      simp only [ne_eq, compare_le_iff_le]
      exact le_total _ _⟩
  haveI : IsTrans α (fun a b => compare (key a) (key b) ≠ Ordering.gt) :=
    ⟨fun a b c hab hbc => by
      simp only [ne_eq, compare_le_iff_le] at hab hbc ⊢
      exact le_trans hab hbc⟩
  have hs := List.sorted_insertionSort
    (fun a b => compare (key a) (key b) ≠ Ordering.gt) l
  unfold sortByCmp
  exact hs.imp (fun hab => compare_le_iff_le.mp hab)

/-- Pairwise descending order in a key after `sort_by` with the reversed
comparator of that key. -/
theorem sortByCmp_pairwise_ge {α β : Type} [LinearOrder β] (key : α → β)
    (l : List α) :
    (sortByCmp (fun a b => compare (key b) (key a)) l).Pairwise
      (fun a b => key b ≤ key a) := by
  haveI : IsTotal α (fun a b => compare (key b) (key a) ≠ Ordering.gt) :=
    ⟨fun a b => by
      simp only [ne_eq, compare_le_iff_le]
      exact le_total _ _⟩
  haveI : IsTrans α (fun a b => compare (key b) (key a) ≠ Ordering.gt) :=
    ⟨fun a b c hab hbc => by
      simp only [ne_eq, compare_le_iff_le] at hab hbc ⊢
      exact le_trans hbc hab⟩
  have hs := List.sorted_insertionSort
    (fun a b => compare (key b) (key a) ≠ Ordering.gt) l
  unfold sortByCmp
  exact hs.imp (fun hab => compare_le_iff_le.mp hab)

/-- The per-language rows as printed in summary mode: the language totals of
the grouping, ordered by the sort dispatch (main.rs lines 291-326). -/
def summaryRows (sort : String) (fcs : List FileCount) :
    List (Lang × LangTotal) :=
  (sortSummary sort (langTotals (groupByLang fcs))).1

theorem langTotals_files_sum (fcs : List FileCount) :
    ((langTotals (groupByLang fcs)).map (fun r => r.2.files)).sum = fcs.length := by
  have h1 : (langTotals (groupByLang fcs)).map (fun r => r.2.files)
      = (groupByLang fcs).map (fun b => b.2.length) := by
    simp [langTotals, List.map_map, Function.comp]
  rw [h1, ← flatten_length, (groupByLang_flatten_perm fcs).length_eq]

theorem langTotals_proj_sum (g : Count → Nat)
    (hg : ∀ counts : List Count, g (totalCount counts) = (counts.map g).sum)
    (fcs : List FileCount) :
    ((langTotals (groupByLang fcs)).map (fun r => g r.2.count)).sum
      = (fcs.map (fun fc => g fc.count)).sum := by
  have h1 : (langTotals (groupByLang fcs)).map (fun r => g r.2.count)
      = (groupByLang fcs).map (fun b => (b.2.map (fun fc => g fc.count)).sum) := by
    simp only [langTotals, List.map_map, Function.comp_def]
    apply List.map_congr_left
    intro b _
    rw [hg, List.map_map]
    rfl
  rw [h1, ← flatten_map_sum]
  exact ((groupByLang_flatten_perm fcs).map _).sum_eq

/-! ## Theorems -/

/-- C1: after all `Work::File` items are pushed, the coordinator pushes
exactly one `Work::Quit` per spawned worker; a worker's run loop stops at
the first `Quit` it steals (everything after it is never consumed); and for
an empty file set a worker that only observes empty steals before its
`Quit` returns the empty result list. -/
theorem coordinator_quit_and_worker_termination
    (classify : String → Lang) (cnt : String → Count) :
    (∀ (files : List String) (threads : Nat),
        (coordinatorQueue files threads).count Work.Quit = threads)
    ∧ (∀ (pre post : List Stolen),
        Worker.run classify cnt (pre ++ Stolen.Data Work.Quit :: post)
          = Worker.run classify cnt (pre ++ [Stolen.Data Work.Quit]))
    ∧ (∀ k : Nat,
        Worker.run classify cnt
          (List.replicate k Stolen.Empty ++ [Stolen.Data Work.Quit]) = [])
    ∧ (∀ trace : List Stolen,
        (∀ w, Stolen.Data w ∈ trace → w = Work.Quit) →
        Worker.run classify cnt trace = []) := by
  refine ⟨?_, ?_, ?_, ?_⟩
  · intro files threads
    have h0 : (files.map Work.File).count Work.Quit = 0 := by
      rw [List.count_eq_zero]
      simp
    simp [coordinatorQueue, List.count_append, h0]
  · intro pre post
    induction pre with
    | nil => simp [Worker.run]
    | cons s rest ih =>
      cases s with
      | Empty => simpa [Worker.run] using ih
      | Abort => simpa [Worker.run] using ih
      | Data w =>
        cases w with
        | Quit => simp [Worker.run]
        | File p =>
          simp only [List.cons_append, Worker.run]
          split
          · simp [ih]
          · exact ih
  · intro k
    induction k with
    | zero => simp [Worker.run]
    | succ m ih => simpa [Worker.run, List.replicate_succ] using ih
  · intro trace h
    induction trace with
    | nil => rfl
    | cons s rest ih =>
      cases s with
      | Empty => exact ih (fun w hw => h w (List.mem_cons_of_mem _ hw))
      | Abort => exact ih (fun w hw => h w (List.mem_cons_of_mem _ hw))
      | Data w =>
        have hq : w = Work.Quit := h w (List.mem_cons_self _ _)
        rw [hq]
        rfl

/-- C1 witness: the Quit count, the stop-at-Quit law and the empty-file-set
law at concrete inputs: two files with two workers, a trace with items after
its `Quit`, and a quiet trace of one empty steal then `Quit`. -/
theorem coordinator_quit_and_worker_termination_witness :
    ((coordinatorQueue ["a.rs", "b.rs"] 2).count Work.Quit = 2)
    ∧ (Worker.run (fun _ => Lang.Named "Rust") (fun _ => ⟨1, 0, 0, 1⟩)
        ([Stolen.Data (Work.File "a.rs")] ++ [Stolen.Data Work.Quit]
          ++ [Stolen.Data (Work.File "b.rs")])
        = Worker.run (fun _ => Lang.Named "Rust") (fun _ => ⟨1, 0, 0, 1⟩)
            ([Stolen.Data (Work.File "a.rs")] ++ [Stolen.Data Work.Quit]))
    ∧ Worker.run (fun _ => Lang.Named "Rust") (fun _ => ⟨1, 0, 0, 1⟩)
        [Stolen.Empty, Stolen.Data Work.Quit] = [] := by
  have h := coordinator_quit_and_worker_termination
    (fun _ => Lang.Named "Rust") (fun _ => ⟨1, 0, 0, 1⟩)
  refine ⟨h.1 ["a.rs", "b.rs"] 2, ?_, ?_⟩
  · simpa using h.2.1 [Stolen.Data (Work.File "a.rs")]
      [Stolen.Data (Work.File "b.rs")]
  · refine h.2.2.2 [Stolen.Empty, Stolen.Data Work.Quit] ?_
    intro w hw
    simp at hw
    exact hw

/-- C3: every `FileCount` a worker produces has a recognized language — the
`Worker::run` loop only pushes a `FileCount` when `lang_from_ext` returned
something other than `Unrecognized`. -/
theorem worker_no_unrecognized
    (classify : String → Lang) (cnt : String → Count)
    (trace : List Stolen) (fc : FileCount)
    (hmem : fc ∈ Worker.run classify cnt trace) :
    fc.lang ≠ Lang.Unrecognized := by
  revert hmem
  induction trace with
  | nil => intro hmem; simp [Worker.run] at hmem
  | cons s rest ih =>
    intro hmem
    cases s with
    | Empty => exact ih (by simpa [Worker.run] using hmem)
    | Abort => exact ih (by simpa [Worker.run] using hmem)
    | Data w =>
      cases w with
      | Quit => simp [Worker.run] at hmem
      | File p =>
        simp only [Worker.run] at hmem
        by_cases h : classify p ≠ Lang.Unrecognized
        · rw [if_pos h] at hmem
          rcases List.mem_cons.mp hmem with h1 | h1
          · rw [h1]
            exact h
          · exact ih h1
        · rw [if_neg h] at hmem
          exact ih hmem

/-- C3 witness: on a concrete trace with one recognized file, the produced
`FileCount` indeed has a recognized language. -/
theorem worker_no_unrecognized_witness :
    (⟨"a.rs", Lang.Named "Rust", ⟨1, 2, 3, 4⟩⟩ : FileCount) ∈
        Worker.run (fun _ => Lang.Named "Rust") (fun _ => ⟨1, 2, 3, 4⟩)
          [Stolen.Data (Work.File "a.rs"), Stolen.Data Work.Quit]
    ∧ (⟨"a.rs", Lang.Named "Rust", ⟨1, 2, 3, 4⟩⟩ : FileCount).lang
        ≠ Lang.Unrecognized := by
  have hmem : (⟨"a.rs", Lang.Named "Rust", ⟨1, 2, 3, 4⟩⟩ : FileCount) ∈
      Worker.run (fun _ => Lang.Named "Rust") (fun _ => ⟨1, 2, 3, 4⟩)
        [Stolen.Data (Work.File "a.rs"), Stolen.Data Work.Quit] := by decide
  exact ⟨hmem, worker_no_unrecognized _ _ _ _ hmem⟩

/-- C5 (code bug): at `--width 40` the leading-column width `width - 63`
and the per-file path-column width `width - 55` both underflow `usize`
subtraction, so the program panics (debug) or wraps (release) instead of
rendering within 40 columns. -/
theorem width40_layout_underflows :
    firstColWidth 40 = none ∧ pathColWidth 40 = none := by decide

/-- C6: a walker path is kept iff (no include pattern, or the include regex
matches) and (no exclude pattern, or the exclude regex does not match); in
particular when both regexes match, the path is excluded. -/
theorem keepPath_spec (include_regex exclude_regex : Option (String → Bool))
    (path : String) :
    (keepPath include_regex exclude_regex path = true ↔
      ((include_regex = none
          ∨ ∃ inc, include_regex = some inc ∧ inc path = true)
        ∧ (exclude_regex = none
          ∨ ∃ exc, exclude_regex = some exc ∧ exc path = false)))
    ∧ (∀ inc exc, include_regex = some inc → exclude_regex = some exc →
        inc path = true → exc path = true →
        keepPath include_regex exclude_regex path = false) := by
  constructor
  · rcases include_regex with _ | inc <;> rcases exclude_regex with _ | exc <;>
      simp [keepPath]
  · intro inc exc h1 h2 h3 h4
    rw [h1, h2]
    simp [keepPath, h3, h4]

/-- C6 witness: with an include regex matching the two `.rs` files and an
exclude regex matching `main.rs`, the path `main.rs` — matched by both —
is excluded. -/
theorem keepPath_spec_witness :
    keepPath (some (fun p => p == "a.rs" || p == "main.rs"))
        (some (fun p => p == "main.rs")) "main.rs" = false :=
  (keepPath_spec _ _ "main.rs").2 _ _ rfl rfl (by decide) (by decide)

/-- C9: an erroneous walker entry (`entry.ok()` is `None`) is silently
dropped by `filter_map` and the rest of the walk is processed exactly as if
the entry were absent; no traversal error aborts the run. -/
theorem traversal_error_skipped
    (include_regex exclude_regex : Option (String → Bool))
    (pre post : List (Option DirEntry)) :
    walkFiles include_regex exclude_regex (pre ++ none :: post)
      = walkFiles include_regex exclude_regex (pre ++ post) := by
  simp [walkFiles, List.filterMap_append]

/-- C10: a `--width` value that is neither `"full"` nor a parseable unsigned
integer makes the option processing panic (the modelled result is `none`),
rather than fall back to the default width 80. -/
theorem width_unparseable_panics (termWidth : Option Nat) :
    computeWidth (some "abc") termWidth = none
    ∧ computeWidth (some "abc") termWidth ≠ some 80 := by
  have h : computeWidth (some "abc") termWidth = none := by
    simp only [computeWidth]
    rw [if_neg (by decide)]
    decide
  exact ⟨h, by simp [h]⟩

/-- C8 counterexample: for `s = "éab"` (whose first character occupies two
UTF-8 bytes) and `n = 2`, the code returns `"b"`, not the trailing two
characters `"ab"`: `s.len()` counts bytes (4) while `chars().skip` skips
characters, so 2 characters are dropped instead of 1. -/
theorem last_n_chars_multibyte_counterexample :
    last_n_chars "éab" 2 = "b"
    ∧ String.mk ("éab".data.drop ("éab".data.length - 2)) = "ab"
    ∧ last_n_chars "éab" 2 ≠ String.mk ("éab".data.drop ("éab".data.length - 2)) := by
  decide

/-- Sum of UTF-8 sizes of an all-single-byte character list is its length. -/
theorem ascii_sum_len (l : List Char) (h : ∀ c ∈ l, Char.utf8Size c = 1) :
    (l.map Char.utf8Size).sum = l.length := by
  induction l with
  | nil => simp
  | cons c cs ih =>
    simp only [List.map_cons, List.sum_cons, List.length_cons,
      h c (by simp), ih (fun d hd => h d (by simp [hd]))]
    omega

/-- C8 amended: a path whose byte length fits within `n` is unchanged; a
longer path is truncated to a suffix of its character sequence by dropping
`byteLen s - n` leading characters; when the path is ASCII (every character
single-byte) that suffix is exactly the trailing `n` characters. -/
theorem last_n_chars_keeps_trailing (s : String) (n : Nat) :
    (byteLen s ≤ n → last_n_chars s n = s)
    ∧ (n < byteLen s →
        last_n_chars s n = String.mk (s.data.drop (byteLen s - n))
        ∧ (s.data.drop (byteLen s - n)) <:+ s.data)
    ∧ ((∀ c ∈ s.data, c.utf8Size = 1) → n < byteLen s →
        last_n_chars s n = String.mk (s.data.drop (s.data.length - n))
        ∧ (s.data.drop (s.data.length - n)).length = n) := by
  refine ⟨?_, ?_, ?_⟩
  · intro h
    simp [last_n_chars, h]
  · intro h
    refine ⟨by simp [last_n_chars, Nat.not_le.mpr h], List.drop_suffix _ _⟩
  · intro hascii h
    have hb : byteLen s = s.data.length := ascii_sum_len s.data hascii
    rw [hb] at h
    constructor
    · rw [show s.data.length = byteLen s from hb.symm] at h ⊢
      simp [last_n_chars, Nat.not_le.mpr h]
    · rw [List.length_drop]
      omega

/-- C8 witness: a short ASCII path is unchanged at width 80; `"src/a.rs"`
at budget 4 is truncated to its trailing 4 characters. -/
theorem last_n_chars_keeps_trailing_witness :
    (byteLen "a.rs" ≤ 80 ∧ last_n_chars "a.rs" 80 = "a.rs")
    ∧ (4 < byteLen "src/a.rs"
        ∧ last_n_chars "src/a.rs" 4
            = String.mk ("src/a.rs".data.drop (byteLen "src/a.rs" - 4)))
    ∧ ((∀ c ∈ "src/a.rs".data, c.utf8Size = 1)
        ∧ ("src/a.rs".data.drop ("src/a.rs".data.length - 4)).length = 4) :=
  ⟨⟨by decide, (last_n_chars_keeps_trailing "a.rs" 80).1 (by decide)⟩,
   ⟨by decide, ((last_n_chars_keeps_trailing "src/a.rs" 4).2.1 (by decide)).1⟩,
   ⟨by decide, ((last_n_chars_keeps_trailing "src/a.rs" 4).2.2 (by decide)
      (by decide)).2⟩⟩

/-- C2: the Totals row printed in summary mode equals the column-wise sum
(Files, Lines, Blank, Comment, Code) over the per-language rows, and that
sum equals the row count and column-wise sums of the per-file rows shown in
per-file mode — whatever sort keys either mode uses. -/
theorem totals_row_invariant (fcs : List FileCount) (sortS sortF : String) :
    totalsRow (summaryRows sortS fcs) =
      { files := ((summaryRows sortS fcs).map (fun r => r.2.files)).sum,
        count :=
          { code := ((summaryRows sortS fcs).map (fun r => r.2.count.code)).sum,
            comment := ((summaryRows sortS fcs).map (fun r => r.2.count.comment)).sum,
            blank := ((summaryRows sortS fcs).map (fun r => r.2.count.blank)).sum,
            lines := ((summaryRows sortS fcs).map (fun r => r.2.count.lines)).sum } }
    ∧ totalsRow (summaryRows sortS fcs) =
      { files := (perFileRows sortF fcs).length,
        count :=
          { code := ((perFileRows sortF fcs).map (fun fc => fc.count.code)).sum,
            comment := ((perFileRows sortF fcs).map (fun fc => fc.count.comment)).sum,
            blank := ((perFileRows sortF fcs).map (fun fc => fc.count.blank)).sum,
            lines := ((perFileRows sortF fcs).map (fun fc => fc.count.lines)).sum } } := by
  have hsp : List.Perm (summaryRows sortS fcs) (langTotals (groupByLang fcs)) :=
    sortSummary_perm _ _
  have hpf : List.Perm (perFileRows sortF fcs) fcs := perFileRows_perm _ _
  refine ⟨totalsRow_eq_sums _, ?_⟩
  rw [totalsRow_eq_sums]
  have hfiles : ((summaryRows sortS fcs).map (fun r => r.2.files)).sum
      = (perFileRows sortF fcs).length := by
    rw [(hsp.map _).sum_eq, langTotals_files_sum, hpf.length_eq]
  have hcol : ∀ g : Count → Nat,
      (∀ counts : List Count, g (totalCount counts) = (counts.map g).sum) →
      ((summaryRows sortS fcs).map (fun r => g r.2.count)).sum
        = ((perFileRows sortF fcs).map (fun fc => g fc.count)).sum := by
    intro g hg
    rw [(hsp.map _).sum_eq, langTotals_proj_sum g hg, (hpf.map _).sum_eq]
  have hc := hcol (fun c => c.code) (fun counts => by simp [totalCount_eq_sums])
  have hcm := hcol (fun c => c.comment) (fun counts => by simp [totalCount_eq_sums])
  have hb := hcol (fun c => c.blank) (fun counts => by simp [totalCount_eq_sums])
  have hl := hcol (fun c => c.lines) (fun counts => by simp [totalCount_eq_sums])
  simp only [LangTotal.mk.injEq, Count.mk.injEq]
  exact ⟨hfiles, hc, hcm, hb, hl⟩

/-- C4 counterexample: with two Rust files of code counts 1 and 2 in arrival
order, per-file mode under the unknown key `bogus` leaves them unsorted
while `--sort code` reverses them, so the outputs are not identical. -/
theorem unknown_sort_per_file_differs :
    sortPerFile "bogus"
        [⟨"a.rs", Lang.Named "Rust", ⟨1, 0, 0, 1⟩⟩,
         ⟨"b.rs", Lang.Named "Rust", ⟨2, 0, 0, 2⟩⟩]
      ≠ sortPerFile "code"
        [⟨"a.rs", Lang.Named "Rust", ⟨1, 0, 0, 1⟩⟩,
         ⟨"b.rs", Lang.Named "Rust", ⟨2, 0, 0, 2⟩⟩] := by decide

/-- C4 amended: for a sort key outside the recognized set the program never
aborts; in summary mode it prints the warning and sorts exactly as
`--sort code`; in per-file mode it prints nothing and leaves each
language's file rows in arrival order (which need not match `--sort
code`). -/
theorem unknown_sort_fallback (sort : String)
    (h : sort ∉ ["language", "files", "code", "comment", "blank", "lines"])
    (rows : List (Lang × LangTotal)) (fcs : List FileCount) :
    (sortSummary sort rows).1 = (sortSummary "code" rows).1
    ∧ (sortSummary sort rows).2 = true
    ∧ sortPerFile sort fcs = fcs := by
  simp only [List.mem_cons, List.not_mem_nil, or_false, not_or] at h
  obtain ⟨h1, h2, h3, h4, h5, h6⟩ := h
  have hc : (sortSummary "code" rows).1
      = sortByCmp (fun a b => compare b.2.count.code a.2.count.code) rows := rfl
  refine ⟨?_, ?_, ?_⟩
  · rw [hc]
    unfold sortSummary
    split <;> first | rfl | simp_all
  · unfold sortSummary
    split <;> first | rfl | simp_all
  · unfold sortPerFile
    split <;> first | rfl | simp_all

/-- C4 witness: the amended statement at the concrete unknown key
`bogus`. -/
theorem unknown_sort_fallback_witness :
    ("bogus" ∉ ["language", "files", "code", "comment", "blank", "lines"])
    ∧ ((sortSummary "bogus" []).1 = (sortSummary "code" []).1
        ∧ (sortSummary "bogus" ([] : List (Lang × LangTotal))).2 = true
        ∧ sortPerFile "bogus" [] = []) :=
  ⟨by decide, unknown_sort_fallback "bogus" (by decide) [] []⟩

/-- C7: in summary mode the `language` key orders the rows ascending by
display name and each numeric key orders them descending by its value; on
rows Go(code=100), Rust(code=50), Python(code=200), `--sort code` yields
Python, Go, Rust and `--sort language` yields Go, Python, Rust regardless
of the code counts. -/
theorem summary_sort_spec (rows : List (Lang × LangTotal)) :
    ((sortSummary "language" rows).1.Pairwise
        (fun a b => Lang.to_s a.1 ≤ Lang.to_s b.1))
    ∧ ((sortSummary "files" rows).1.Pairwise (fun a b => b.2.files ≤ a.2.files))
    ∧ ((sortSummary "code" rows).1.Pairwise
        (fun a b => b.2.count.code ≤ a.2.count.code))
    ∧ ((sortSummary "comment" rows).1.Pairwise
        (fun a b => b.2.count.comment ≤ a.2.count.comment))
    ∧ ((sortSummary "blank" rows).1.Pairwise
        (fun a b => b.2.count.blank ≤ a.2.count.blank))
    ∧ ((sortSummary "lines" rows).1.Pairwise
        (fun a b => b.2.count.lines ≤ a.2.count.lines))
    ∧ ((sortSummary "code"
          [(Lang.Named "Go", ⟨1, ⟨100, 0, 0, 100⟩⟩),
           (Lang.Named "Rust", ⟨1, ⟨50, 0, 0, 50⟩⟩),
           (Lang.Named "Python", ⟨1, ⟨200, 0, 0, 200⟩⟩)]).1.map Prod.fst
        = [Lang.Named "Python", Lang.Named "Go", Lang.Named "Rust"])
    ∧ ((sortSummary "language"
          [(Lang.Named "Go", ⟨1, ⟨100, 0, 0, 100⟩⟩),
           (Lang.Named "Rust", ⟨1, ⟨50, 0, 0, 50⟩⟩),
           (Lang.Named "Python", ⟨1, ⟨200, 0, 0, 200⟩⟩)]).1.map Prod.fst
        = [Lang.Named "Go", Lang.Named "Python", Lang.Named "Rust"]) := by
  refine ⟨?_, ?_, ?_, ?_, ?_, ?_, by decide, by decide⟩
  · show (sortByCmp (fun a b => compare (Lang.to_s a.1) (Lang.to_s b.1))
        rows).Pairwise (fun a b => Lang.to_s a.1 ≤ Lang.to_s b.1)
    exact sortByCmp_pairwise_le (fun r : Lang × LangTotal => Lang.to_s r.1) rows
  · show (sortByCmp (fun a b => compare b.2.files a.2.files)
        rows).Pairwise (fun a b => b.2.files ≤ a.2.files)
    exact sortByCmp_pairwise_ge (fun r : Lang × LangTotal => r.2.files) rows
  · show (sortByCmp (fun a b => compare b.2.count.code a.2.count.code)
        rows).Pairwise (fun a b => b.2.count.code ≤ a.2.count.code)
    exact sortByCmp_pairwise_ge (fun r : Lang × LangTotal => r.2.count.code) rows
  · show (sortByCmp (fun a b => compare b.2.count.comment a.2.count.comment)
        rows).Pairwise (fun a b => b.2.count.comment ≤ a.2.count.comment)
    exact sortByCmp_pairwise_ge (fun r : Lang × LangTotal => r.2.count.comment) rows
  · show (sortByCmp (fun a b => compare b.2.count.blank a.2.count.blank)
        rows).Pairwise (fun a b => b.2.count.blank ≤ a.2.count.blank)
    exact sortByCmp_pairwise_ge (fun r : Lang × LangTotal => r.2.count.blank) rows
  · show (sortByCmp (fun a b => compare b.2.count.lines a.2.count.lines)
        rows).Pairwise (fun a b => b.2.count.lines ≤ a.2.count.lines)
    exact sortByCmp_pairwise_ge (fun r : Lang × LangTotal => r.2.count.lines) rows

end Linecount
